import Mathlib

/-!
Verification development for the gauge acceptance-test runner.

The Go sources are shallowly embedded: strings become `List Char` (with
`String` wrappers at the few user-facing entry points), Go's `strings`
helpers are re-implemented with their exact leftmost/non-overlapping
semantics, and the constant-expression evaluator that the filter package
delegates to (`go/types.Eval` after mapping `true`/`false` to `1`/`0`)
is embedded as a small Pratt-style parser over the token set the filter
can produce.  Fallible operations return `Option`.
-/

namespace Gauge

/-- `startsWithL pat s` is true when `pat` is an initial segment of `s`
(the role `strings.HasPrefix` / pattern matching plays in Go's
`strings.Replace` scan). -/
def startsWithL : List Char → List Char → Bool
  | [], _ => true
  | _ :: _, [] => false
  | p :: ps, c :: cs => p == c && startsWithL ps cs

/-- One fuelled pass of Go's `strings.Replace(s, pat, rep, -1)`: scan left to
right; whenever `pat` starts at the current position emit `rep` and skip
`pat.length` characters, otherwise keep one character and advance.  The fuel
only bounds the recursion; `fuel = s.length` always suffices because every
step consumes at least one character, and Go's special case for an empty
pattern is never exercised by this code base (the model keeps the string). -/
def replaceF (pat rep : List Char) : Nat → List Char → List Char
  | _, [] => []
  | 0, s => s
  | fuel + 1, c :: rest =>
    if pat ≠ [] ∧ startsWithL pat (c :: rest) then
      rep ++ replaceF pat rep fuel (List.drop (pat.length - 1) rest)
    else
      c :: replaceF pat rep fuel rest

/-- Go's `strings.Replace(s, pat, rep, -1)` on character lists. -/
def replaceGo (pat rep s : List Char) : List Char :=
  replaceF pat rep s.length s

/-- Whether `pat` occurs as a contiguous substring of `s`
(Go's `strings.Contains`). -/
def containsSub (pat : List Char) : List Char → Bool
  | [] => pat.isEmpty
  | c :: rest => startsWithL pat (c :: rest) || containsSub pat rest

/-- Index of the first occurrence of `pat` in `s` (Go's `strings.Index`,
with `none` for Go's `-1`). -/
def indexOfSub (pat : List Char) : List Char → Option Nat
  | [] => if pat.isEmpty then some 0 else none
  | c :: rest =>
    if startsWithL pat (c :: rest) then some 0
    else (indexOfSub pat rest).map (· + 1)

/-- Go's `unicode.IsSpace` restricted to the ASCII whitespace that can occur
in tag expressions. -/
def isSpaceChar (c : Char) : Bool :=
  c == ' ' || c == '\t' || c == '\n' || c == '\r'

/-- Go's `strings.TrimSpace` on character lists. -/
def trimSpace (l : List Char) : List Char :=
  ((l.dropWhile isSpaceChar).reverse.dropWhile isSpaceChar).reverse

/-- Helper for `fieldsFunc`: `acc` holds the characters of the current field
in reverse. -/
def fieldsFuncAux (f : Char → Bool) : List Char → List Char → List (List Char)
  | [], acc => if acc.isEmpty then [] else [acc.reverse]
  | c :: rest, acc =>
    if f c then
      if acc.isEmpty then fieldsFuncAux f rest []
      else acc.reverse :: fieldsFuncAux f rest []
    else fieldsFuncAux f rest (c :: acc)

/-- Go's `strings.FieldsFunc`: the maximal non-empty runs of characters on
which `f` is false. -/
def fieldsFunc (f : Char → Bool) (s : List Char) : List (List Char) :=
  fieldsFuncAux f s []

/-- `strconv.FormatBool` as a character list. -/
def formatBool (b : Bool) : List Char :=
  if b then "true".data else "false".data

/-! ### The constant-expression evaluator behind `evaluateExp`

`evaluateExp` in `filter.go` maps `true → 1`, `false → 0` and hands the
string to `go/types.Eval`.  On the strings this program produces, that
evaluator accepts exactly integer literals combined with Go's bitwise
`&` (binding tighter than `|`) and parentheses; every other token —
identifiers left over from a failed substitution, a stray `!` (which Go
rejects on integers), unbalanced brackets, the empty string — makes
`types.Eval` return an error.  The embedding mirrors that fragment. -/

inductive GoTok where
  | num (n : Nat)
  | amp
  | bar
  | lpar
  | rpar
deriving DecidableEq, Repr

/-- Accumulate a run of decimal digits (the Go scanner's integer literal). -/
def takeNum (n : Nat) : List Char → Nat × List Char
  | [] => (n, [])
  | c :: rest =>
    if c.isDigit then takeNum (n * 10 + (c.toNat - 48)) rest
    else (n, c :: rest)

/-- Fuelled scanner for the evaluator's input; any character outside
digits, `&`, `|`, `(`, `)` is a scan/type error (`none`).  Fuel
`s.length + 1` always suffices: each step consumes at least one
character. -/
def tokenizeGoF : Nat → List Char → Option (List GoTok)
  | 0, _ => none
  | _, [] => some []
  | fuel + 1, c :: rest =>
    if c == '&' then (tokenizeGoF fuel rest).map (GoTok.amp :: ·)
    else if c == '|' then (tokenizeGoF fuel rest).map (GoTok.bar :: ·)
    else if c == '(' then (tokenizeGoF fuel rest).map (GoTok.lpar :: ·)
    else if c == ')' then (tokenizeGoF fuel rest).map (GoTok.rpar :: ·)
    else if c.isDigit then
      let p := takeNum (c.toNat - 48) rest
      (tokenizeGoF fuel p.2).map (GoTok.num p.1 :: ·)
    else none

def tokenizeGo (s : List Char) : Option (List GoTok) :=
  tokenizeGoF (s.length + 1) s

/-- Fuelled parser for `orExpr := andExpr (| andExpr)*`,
`andExpr := primary (& primary)*`, `primary := num | ( orExpr )` at
`lvl` 0/1/2 respectively, evaluating with `Nat.lor`/`Nat.land` (Go's
bitwise `|`/`&` on non-negative constants).  The chains are parsed
right-associated; Go parses them left-associated, but `lor` and `land`
are associative so the value is identical.  Fuel `3 * length + 8`
covers the deepest possible descent. -/
def parseL : Nat → Nat → List GoTok → Option (Nat × List GoTok)
  | 0, _, _ => none
  | fuel + 1, 0, ts =>
    match parseL fuel 1 ts with
    | some (a, GoTok.bar :: rest) =>
      match parseL fuel 0 rest with
      | some (b, rest2) => some (Nat.lor a b, rest2)
      | none => none
    | r => r
  | fuel + 1, 1, ts =>
    match parseL fuel 2 ts with
    | some (a, GoTok.amp :: rest) =>
      match parseL fuel 1 rest with
      | some (b, rest2) => some (Nat.land a b, rest2)
      | none => none
    | r => r
  | fuel + 1, _ + 2, ts =>
    match ts with
    | GoTok.num n :: rest => some (n, rest)
    | GoTok.lpar :: rest =>
      match parseL fuel 0 rest with
      | some (v, GoTok.rpar :: rest2) => some (v, rest2)
      | _ => none
    | _ => none

/-- `go/types.Eval` on the fragment reachable from the filter: `none` is
an evaluation error; otherwise the (non-negative) constant value. -/
def goEval (s : List Char) : Option Nat :=
  match tokenizeGo s with
  | none => none
  | some ts =>
    match parseL (3 * ts.length + 8) 0 ts with
    | some (v, []) => some v
    | _ => none

/-- `evaluateExp` (filter.go:146-166): replace `true → 1` then
`false → 0`, evaluate as a Go constant expression, and report whether the
result equals 1.  `none` models the `(false, err)` return. -/
def evaluateExp (t : List Char) : Option Bool :=
  let s := replaceGo "false".data "0".data (replaceGo "true".data "1".data t)
  (goEval s).map (fun v => v == 1)

/-- The boolean a caller that discards the error sees (Go's zero value
`false` on error). -/
def evaluateExpVal (t : List Char) : Bool :=
  (evaluateExp t).getD false

/-! ### Negation elimination -/

/-- The balanced-bracket scan of `resolveBracketExpression`
(filter.go:132-142): the number of characters examined before the scan
stops — it stops on the `)` that brings the depth back to zero (that
character not counted), or at the end of the string.  Depth is a `Nat`;
Go's pop on an empty stack would panic, but the scan always starts on
the `(` of a `!(`, so the stack is non-empty at every pop. -/
def scanLen (depth : Nat) : List Char → Nat
  | [] => 0
  | c :: rest =>
    let d := if c == '(' then depth + 1 else if c == ')' then depth - 1 else depth
    if d == 0 then 0 else 1 + scanLen d rest

/-- `resolveBracketExpression` (filter.go:129-144): the text between the
first `!(` and its matching `)` (or the rest of the string when the
bracket never closes). -/
def resolveBracketExpression (t : List Char) : List Char :=
  let idx := match indexOfSub ['!', '('] t with
    | some k => k + 1
    | none => 0
  let steps := scanLen 0 (t.drop idx)
  (t.drop (idx + 1)).take (steps - 1)

/-- `evaluateBrackets` (filter.go:120-127): while a `!(` remains, resolve
its bracketed text, recursively reduce that text, and splice the result
over every occurrence of `!(text)`; otherwise evaluate and return the
negated boolean as a literal.  The inner text is at least two characters
shorter than its enclosing string, so fuel `t.length + 1` covers every
recursive call. -/
def evaluateBrackets : Nat → List Char → List Char
  | 0, t => t
  | fuel + 1, t =>
    if containsSub ['!', '('] t then
      let inner := resolveBracketExpression t
      replaceGo ('!' :: '(' :: (inner ++ [')'])) (evaluateBrackets fuel inner) t
    else formatBool (!(evaluateExpVal t))

/-- The `for strings.Contains(tagExpression, "!(")` loop of
`handleNegation` (filter.go:114-116).  Every productive iteration
removes at least one `!(` occurrence, so `t.length + 1` iterations
suffice; when the brackets never close, the Go loop does not terminate,
and the model instead returns the unchanged string once the fuel is
spent — the retention theorem therefore restricts itself to expressions
whose parentheses all close (`parenScan`). -/
def negLoop : Nat → List Char → List Char
  | 0, t => t
  | fuel + 1, t =>
    if containsSub ['!', '('] t then
      negLoop fuel (evaluateBrackets (t.length + 1) t)
    else t

/-- `handleNegation` (filter.go:112-118): literal negations first
(`!true → false`, `!false → true`), then the bracket loop. -/
def handleNegation (t : List Char) : List Char :=
  let t1 := replaceGo "!false".data "true".data (replaceGo "!true".data "false".data t)
  negLoop (t1.length + 1) t1

/-! ### Normalisation, tokenisation, substitution -/

/-- `replaceSpecialChar` (filter.go:86-88): strip spaces, `, → &`,
collapse `&& → &` and `|| → |`, in that order. -/
def replaceSpecialChar (t : List Char) : List Char :=
  replaceGo "||".data "|".data
    (replaceGo "&&".data "&".data
      (replaceGo ",".data "&".data
        (replaceGo " ".data "".data t)))

/-- The operator characters of `getOperatorsAndOperands`
(filter.go:176). -/
def isOperatorChar (c : Char) : Bool :=
  c == '&' || c == '|' || c == '(' || c == ')' || c == '!'

/-- The operand list of `getOperatorsAndOperands` (filter.go:173-185):
`strings.FieldsFunc` over the operator characters. -/
def getOperands (t : List Char) : List (List Char) :=
  fieldsFunc isOperatorChar t

/-- Insert into a list already sorted by strictly decreasing length,
after any element of equal length. -/
def insertDesc (acc : List (List Char)) (x : List Char) : List (List Char) :=
  match acc with
  | [] => [x]
  | y :: r => if y.length < x.length then x :: y :: r else y :: insertDesc r x

/-- `sort.Sort(ByLength(tags))` (filter.go:93, 100-110): descending
length.  Go's `sort.Sort` runs an insertion sort — stable for this
strict `Less` — on ranges of at most twelve elements and an unstable
quicksort above; the model is the stable insertion sort at every size,
hence exact for at most twelve operands, the regime to which the
retention theorem restricts itself (order among equal-length tags can
matter when a tag overlaps the substituted `true`/`false` literals). -/
def sortByLenDesc (l : List (List Char)) : List (List Char) :=
  l.foldl insertDesc []

/-- `isTagPresent` (filter.go:168-171): membership in the tags map. -/
def isTagPresent (tagsMap : List (List Char)) (tagName : List Char) : Bool :=
  tagsMap.contains tagName

/-- `formatAndEvaluateExpression` (filter.go:90-98): collect the
operands of the (already normalised) expression, sort them by
descending length, replace each by the literal `true`/`false` of its
membership, then eliminate negations and evaluate.  `none` is the
discarded-error case. -/
def formatAndEvaluateExpression (tagExpression : List Char)
    (tagsMap : List (List Char)) : Option Bool :=
  let tags := sortByLenDesc (getOperands tagExpression)
  let exp := tags.foldl
    (fun e tag =>
      replaceGo (trimSpace tag) (formatBool (isTagPresent tagsMap (trimSpace tag))) e)
    tagExpression
  evaluateExp (handleNegation exp)

/-- `filterTags` (filter.go:76-84) as a state transformer: build the
tags map with all spaces removed from each tag, apply
`replaceSpecialChar` — which Go performs *in place* on
`filter.tagExpression`, so later calls on the same filter see the
already-normalised string — evaluate the normalised expression, and
discard the error (Go returns the zero value `false` alongside it).
The pair is (returned value, the filter's `tagExpression` after the
call). -/
def filterTagsStep (tagExpression : List Char) (stags : List (List Char)) :
    Bool × List Char :=
  let tagsMap := stags.map (fun tag => replaceGo [' '] [] tag)
  let e := replaceSpecialChar tagExpression
  ((formatAndEvaluateExpression e tagsMap).getD false, e)

/-- The boolean a single `filterTags` call returns (the state change is
the second component of `filterTagsStep`). -/
def filterTags (tagExpression : List Char) (stags : List (List Char)) : Bool :=
  (filterTagsStep tagExpression stags).1

/-- String-level entry point used by the theorems: the value of one
`filterTags` call on a fresh filter. -/
def filterTagsS (tagExpression : String) (stags : List String) : Bool :=
  filterTags tagExpression.data (stags.map String.data)

/-- String-level normalisation (`replaceSpecialChar`). -/
def normaliseS (e : String) : String :=
  ⟨replaceSpecialChar e.data⟩

/-! ### Specifications, scenarios, and the scenario filter -/

/-- A `gauge.Item` as the filter sees it: scenarios carry their `Tags`
(`none` models a nil `Tags` pointer, `some` its `Values`); every other
item kind only matters through `Kind() ≠ ScenarioKind`. -/
inductive Item where
  | scenario (tags : Option (List String))
  | nonScenario
deriving DecidableEq, Repr

def Item.isScenario : Item → Bool
  | .scenario _ => true
  | .nonScenario => false

/-- A `gauge.Specification` as the filter sees it: its own optional tag
set and its ordered item list.  The Go struct keeps a separate
`Scenarios` slice that `Filter` keeps in sync with `Items`; here it is
the derived `scenarios` projection. -/
structure Specification where
  tags : Option (List String)
  items : List Item
deriving DecidableEq, Repr

def Specification.scenarios (sp : Specification) : List Item :=
  sp.items.filter Item.isScenario

/-- `ScenarioFilterBasedOnTags` (filter.go:39-42): the spec's tags and
the *mutable* tag expression (`filterTags` re-normalises it in place on
every scenario evaluation). -/
structure ScenarioFilterBasedOnTags where
  specTags : List String
  tagExpression : String
deriving DecidableEq, Repr

/-- `ScenarioFilterBasedOnTags.Filter` (filter.go:65-74) with its state:
the boolean is `true` when the item is to be removed — a scenario is
marked iff the tag evaluation is false (nil tags fall back to the spec
tags alone), and the evaluation mutates the stored expression; any
other item returns `false` without touching the filter. -/
def ScenarioFilterBasedOnTags.Filter (f : ScenarioFilterBasedOnTags) :
    Item → Bool × ScenarioFilterBasedOnTags
  | Item.scenario none =>
    let r := filterTagsStep f.tagExpression.data (f.specTags.map String.data)
    (!r.1, { f with tagExpression := ⟨r.2⟩ })
  | Item.scenario (some ts) =>
    let r := filterTagsStep f.tagExpression.data
      ((ts ++ f.specTags).map String.data)
    (!r.1, { f with tagExpression := ⟨r.2⟩ })
  | Item.nonScenario => (false, f)

/-- The boolean a single `Filter` call on a fresh filter returns (the
state change is the second component of
`ScenarioFilterBasedOnTags.Filter`). -/
def scenarioFilterBasedOnTags (specTags : List String) (tagExpression : String)
    (it : Item) : Bool :=
  (ScenarioFilterBasedOnTags.Filter ⟨specTags, tagExpression⟩ it).1

/-- Modelled from the spec: `gauge.Specification.Filter` (the `gauge`
package is not part of these sources) applies a `SpecItemFilter`
predicate to every item in order and "removes scenarios in place" —
every item for which the predicate answers true is removed, the rest
keep their order.  Go hands the predicate a pointer whose
`tagExpression` every scenario call mutates, so the filter state is
threaded through the items left to right. -/
def filterItemsGo (f : ScenarioFilterBasedOnTags) : List Item → List Item
  | [] => []
  | it :: rest =>
    let r := f.Filter it
    if r.1 then filterItemsGo r.2 rest else it :: filterItemsGo r.2 rest

/-- `spec.Filter(filter)` with a tag-based scenario filter. -/
def Specification.runFilter (sp : Specification)
    (f : ScenarioFilterBasedOnTags) : Specification :=
  { sp with items := filterItemsGo f sp.items }

/-- `filterSpecsByTags` (filter.go:198-211): filter each spec with a
freshly constructed tag-based scenario filter seeded with the spec's own
tags (empty when nil) and the original expression string, and keep only
the specs whose scenario list remains non-empty. -/
def filterSpecsByTags (specs : List Specification) (tagExpression : String) :
    List Specification :=
  specs.filterMap (fun sp =>
    let tagValues := sp.tags.getD []
    let fsp := sp.runFilter ⟨tagValues, tagExpression⟩
    if fsp.scenarios.length ≠ 0 then some fsp else none)

/-- Whether every parenthesis of `t` closes: the scan depth never goes
negative and ends at zero.  On such strings every balanced-bracket scan
of `resolveBracketExpression` finds its closing bracket, each
`evaluateBrackets` splice is productive, and Go's negation-elimination
loop terminates — the regime on which the fuelled `negLoop` agrees with
Go. -/
def parenScan (depth : Nat) : List Char → Bool
  | [] => depth == 0
  | c :: rest =>
    if c == '(' then parenScan (depth + 1) rest
    else if c == ')' then depth != 0 && parenScan (depth - 1) rest
    else parenScan depth rest

/-- Definition following claim C3's words, for comparison with
`filterSpecsByTags`: a scenario is retained iff the tag expression
evaluates to true on its effective tag set (scenario tags followed by
the enclosing spec's tags); every non-scenario item is retained; a spec
is dropped iff its scenario list becomes empty. -/
def filterSpecsByTagsSpec (specs : List Specification) (tagExpression : String) :
    List Specification :=
  specs.filterMap (fun sp =>
    let kept : Specification :=
      { sp with
        items := sp.items.filter (fun it =>
          match it with
          | .scenario t => filterTagsS tagExpression (t.getD [] ++ sp.tags.getD [])
          | .nonScenario => true) }
    if kept.scenarios.isEmpty then none else some kept)

/-! ### Parallel execution coordinator

The coordinator itself (`parallelExecution`, `streamExecError`,
`aggregateResults`, `getNumberOfStreams`) is not among these sources —
only its tests are (`TestGetNumberOfStreams`,
`TestAggregationOfSuiteResult*`).  The definitions below are modelled
from the spec, §4.6, and are checked against those in-source tests by
the theorems. -/

/-- A per-spec result; its contents are irrelevant to the aggregation
claims (only list lengths and identity matter). -/
structure SpecResult where
  serial : Nat := 0
deriving DecidableEq, Repr

/-- Modelled from the spec: `streamExecError` records the specs a failed
stream did not execute and a human-readable reason. -/
structure streamExecError where
  specsSkipped : List String
  message : String
deriving DecidableEq, Repr

/-- Modelled from the spec: `streamExecError.Error()` formats as the
header line, one line per skipped spec, and `Reason : <message>.` with a
trailing period. -/
def streamExecError.errorText (e : streamExecError) : String :=
  "The following specifications could not be executed:\n" ++
    String.join (e.specsSkipped.map (fun s => s ++ "\n")) ++
    "Reason : " ++ e.message ++ "."

/-- A pre/post-suite hook failure; only identity matters here. -/
structure ProtoHookFailure where
  id : Nat := 0
deriving DecidableEq, Repr

/-- `result.SuiteResult`, with the fields the aggregation claims touch.
Go's `UnhandledErrors []error` holds `streamExecError` values in this
code path. -/
structure SuiteResult where
  ExecutionTime : Nat := 0
  SpecResults : List SpecResult := []
  SpecsFailedCount : Nat := 0
  SpecsSkippedCount : Nat := 0
  IsFailed : Bool := false
  PreSuite : Option ProtoHookFailure := none
  PostSuite : Option ProtoHookFailure := none
  UnhandledErrors : List streamExecError := []
deriving DecidableEq, Repr

def emptySuiteResult : SuiteResult := {}

/-- Modelled from the spec, §4.6 "Aggregation": sums for times and
counts, concatenation for spec results, any-failed for `IsFailed`, last
non-nil hook failure, concatenation of the non-empty unhandled-error
lists, and one skipped spec per entry of the validation error map
(passed in as `specsSkippedCount`). -/
def aggregateResults (specsSkippedCount : Nat) (results : List SuiteResult) :
    SuiteResult :=
  { ExecutionTime := (results.map (fun r => r.ExecutionTime)).sum
    SpecResults := (results.map (fun r => r.SpecResults)).flatten
    SpecsFailedCount := (results.map (fun r => r.SpecsFailedCount)).sum
    SpecsSkippedCount := specsSkippedCount
    IsFailed := results.any (fun r => r.IsFailed)
    PreSuite := results.foldl
      (fun acc r => match r.PreSuite with | some h => some h | none => acc) none
    PostSuite := results.foldl
      (fun acc r => match r.PostSuite with | some h => some h | none => acc) none
    UnhandledErrors :=
      ((results.map (fun r => r.UnhandledErrors)).filter (fun l => !l.isEmpty)).flatten }

/-- `parallelExecution` as the stream-count test sees it: the requested
stream count and the spec store's contents. -/
structure parallelExecution where
  numberOfExecutionStreams : Nat
  specs : List Specification
deriving DecidableEq, Repr

/-- Modelled from the spec: `effectiveN = min(N, len(specs))`. -/
def parallelExecution.getNumberOfStreams (e : parallelExecution) : Nat :=
  min e.numberOfExecutionStreams e.specs.length

/-- Modelled from the spec: when `effectiveN == 0` return the empty
suite result, otherwise run `effectiveN` streams (their results supplied
by `streamResult`) and aggregate. -/
def parallelExecution.run (e : parallelExecution) (skipped : Nat)
    (streamResult : Nat → SuiteResult) : SuiteResult :=
  if e.getNumberOfStreams = 0 then emptySuiteResult
  else aggregateResults skipped ((List.range e.getNumberOfStreams).map streamResult)

/-- The test helper `createSpecsList(n)`: a list of `n` specs. -/
def createSpecsList (n : Nat) : List Specification :=
  List.replicate n ⟨none, []⟩

/-! ### The spec-info gatherer's steps cache

`stepsCache` is a Go map keyed by the canonical step value; the model is
the association list of its insertions, read through `List.lookup`. -/

/-- `gauge.StepValue`: the canonical step signature.  `stepValue` is the
cache key. -/
structure StepValue where
  stepValue : String
  args : List String := []
  parameterizedStepValue : String := ""
deriving DecidableEq, Repr

/-- `addToStepsCache` (infoGatherer, part_002:118-126): insert each step
under its `StepValue` key only when the key is absent. -/
def addToStepsCache (cache : List (String × StepValue))
    (allSteps : List StepValue) : List (String × StepValue) :=
  allSteps.foldl
    (fun c step =>
      if (c.lookup step.stepValue).isSome then c else c ++ [(step.stepValue, step)])
    cache

/-- `initStepsCache` (infoGatherer, part_002:85-98): start from the
empty cache and add implemented steps, then steps from concepts, then
steps from specs (`allSteps := append(implementedSteps,
stepsFromConcepts...); append(allSteps, stepsFromSpecs...)`). -/
def initStepsCache (implementedSteps stepsFromConcepts stepsFromSpecs :
    List StepValue) : List (String × StepValue) :=
  addToStepsCache [] (implementedSteps ++ stepsFromConcepts ++ stepsFromSpecs)

/-! ### The API message handler

Only the `MessageId` and `MessageType` of the envelope matter to claim
C9; payload bodies are elided.  The handler's external collaborators
(protobuf decoding, `common.GetUniqueID`, the step-value parser, the
plugin registry, the runner registry) enter through `ApiEnv`, which
records the outcome each collaborator produces for the message at
hand. -/

inductive ApiMessageType where
  | getProjectRootRequest | getProjectRootResponse
  | getInstallationRootRequest | getInstallationRootResponse
  | getAllStepsRequest | getAllStepResponse
  | getAllSpecsRequest | getAllSpecsResponse
  | getStepValueRequest | getStepValueResponse
  | getLanguagePluginLibPathRequest | getLanguagePluginLibPathResponse
  | getAllConceptsRequest | getAllConceptsResponse
  | performRefactoringRequest | performRefactoringResponse
  | extractConceptRequest | extractConceptResponse
  | formatSpecsRequest | formatSpecsResponse
  | errorResponse | unsupportedApiMessageResponse
deriving DecidableEq, Repr

structure APIMessage where
  messageId : Nat
  messageType : ApiMessageType
deriving DecidableEq, Repr

structure ApiEnv where
  /-- `proto.Unmarshal` outcome: `none` is a decode failure. -/
  decoded : Option APIMessage
  /-- `common.GetUniqueID()`. -/
  freshId : Nat
  /-- whether `parser.ExtractStepValueAndParams` succeeds. -/
  stepValueOk : Bool
  /-- whether `plugin.GetInstallDir` succeeds. -/
  installDirOk : Bool
  /-- whether `runner.GetRunnerInfo` succeeds. -/
  runnerInfoOk : Bool
deriving DecidableEq, Repr

/-- `getErrorResponse` (api, part_001:269-273): a typed error response
echoing the request's `MessageId`. -/
def getErrorResponse (message : APIMessage) : APIMessage :=
  { messageId := message.messageId, messageType := ApiMessageType.errorResponse }

/-- `getErrorMessage` (api, part_001:275-279): a typed error response
carrying a freshly generated unique id. -/
def getErrorMessage (env : ApiEnv) : APIMessage :=
  { messageId := env.freshId, messageType := ApiMessageType.errorResponse }

def projectRootRequestResponse (m : APIMessage) : APIMessage :=
  { messageId := m.messageId, messageType := ApiMessageType.getProjectRootResponse }

/-- A `GetInstallationPrefix` failure is only logged; the response is
still sent with the request's id. -/
def installationRootRequestResponse (m : APIMessage) : APIMessage :=
  { messageId := m.messageId,
    messageType := ApiMessageType.getInstallationRootResponse }

def getAllStepsRequestResponse (m : APIMessage) : APIMessage :=
  { messageId := m.messageId, messageType := ApiMessageType.getAllStepResponse }

def getAllSpecsRequestResponse (m : APIMessage) : APIMessage :=
  { messageId := m.messageId, messageType := ApiMessageType.getAllSpecsResponse }

def getStepValueRequestResponse (env : ApiEnv) (m : APIMessage) : APIMessage :=
  if env.stepValueOk then
    { messageId := m.messageId, messageType := ApiMessageType.getStepValueResponse }
  else getErrorResponse m

/-- `getLanguagePluginLibPath` (api, part_001:252-267): both failure
paths call `getErrorMessage` — the fresh-id variant — not
`getErrorResponse`. -/
def getLanguagePluginLibPath (env : ApiEnv) (m : APIMessage) : APIMessage :=
  if env.installDirOk then
    if env.runnerInfoOk then
      { messageId := m.messageId,
        messageType := ApiMessageType.getLanguagePluginLibPathResponse }
    else getErrorMessage env
  else getErrorMessage env

def getAllConceptsRequestResponse (m : APIMessage) : APIMessage :=
  { messageId := m.messageId, messageType := ApiMessageType.getAllConceptsResponse }

def performRefactoring (m : APIMessage) : APIMessage :=
  { messageId := m.messageId,
    messageType := ApiMessageType.performRefactoringResponse }

def extractConcept (m : APIMessage) : APIMessage :=
  { messageId := m.messageId, messageType := ApiMessageType.extractConceptResponse }

def formatSpecs (m : APIMessage) : APIMessage :=
  { messageId := m.messageId, messageType := ApiMessageType.formatSpecsResponse }

def createUnsupportedAPIMessageResponse (m : APIMessage) : APIMessage :=
  { messageId := m.messageId,
    messageType := ApiMessageType.unsupportedApiMessageResponse }

/-- `MessageBytesReceived` (api, part_001:144-190): decode, dispatch on
the message type, and send the handler's response (the value returned
here). -/
def messageBytesReceived (env : ApiEnv) : APIMessage :=
  match env.decoded with
  | none => getErrorMessage env
  | some m =>
    match m.messageType with
    | ApiMessageType.getProjectRootRequest => projectRootRequestResponse m
    | ApiMessageType.getInstallationRootRequest => installationRootRequestResponse m
    | ApiMessageType.getAllStepsRequest => getAllStepsRequestResponse m
    | ApiMessageType.getAllSpecsRequest => getAllSpecsRequestResponse m
    | ApiMessageType.getStepValueRequest => getStepValueRequestResponse env m
    | ApiMessageType.getLanguagePluginLibPathRequest => getLanguagePluginLibPath env m
    | ApiMessageType.getAllConceptsRequest => getAllConceptsRequestResponse m
    | ApiMessageType.performRefactoringRequest => performRefactoring m
    | ApiMessageType.extractConceptRequest => extractConcept m
    | ApiMessageType.formatSpecsRequest => formatSpecs m
    | _ => createUnsupportedAPIMessageResponse m

/-! ### The colored console reporter

`coloredConsole.go` mutates a single `indentation` field; the
`scenarioIndentation` and `stepIndentation` constants live elsewhere in
the reporter package, so they are parameters here — the balance claim is
independent of their values. -/

inductive ConsoleEvent where
  | specStart | specEnd
  | scenarioStart | scenarioEnd
  | stepStart | stepEnd
  | conceptStart | conceptEnd
  | dataTable | errorMsg | writeOut
deriving DecidableEq, Repr

/-- The change each method applies to `c.indentation`
(coloredConsole.go): `ScenarioStart` adds and `ScenarioEnd` subtracts
`scenarioIndentation`; `StepStart`/`ConceptStart` add and
`StepEnd`/`ConceptEnd` subtract `stepIndentation`; every other method
leaves it unchanged (`Error` reads it but does not write). -/
def indentationDelta (scenarioIndentation stepIndentation : Int) :
    ConsoleEvent → Int
  | ConsoleEvent.scenarioStart => scenarioIndentation
  | ConsoleEvent.scenarioEnd => -scenarioIndentation
  | ConsoleEvent.stepStart => stepIndentation
  | ConsoleEvent.stepEnd => -stepIndentation
  | ConsoleEvent.conceptStart => stepIndentation
  | ConsoleEvent.conceptEnd => -stepIndentation
  | _ => 0

/-- The `indentation` field after a sequence of reporter calls. -/
def runConsoleEvents (si st ind : Int) (evs : List ConsoleEvent) : Int :=
  evs.foldl (fun acc ev => acc + indentationDelta si st ev) ind

/-! ## Shared lemmas -/

theorem data_mk (l : List Char) : (⟨l⟩ : String).data = l :=
  rfl

theorem containsSub_cons_eq_false {pat : List Char} {c : Char} {rest : List Char}
    (h : containsSub pat (c :: rest) = false) :
    startsWithL pat (c :: rest) = false ∧ containsSub pat rest = false := by
  simpa [containsSub, Bool.or_eq_false_iff] using h

theorem replaceF_of_not_contains (pat rep : List Char) :
    ∀ (fuel : Nat) (s : List Char), containsSub pat s = false →
      replaceF pat rep fuel s = s := by
  intro fuel
  induction fuel with
  | zero => intro s _; cases s <;> rfl
  | succ f ih =>
    intro s h
    cases s with
    | nil => rfl
    | cons c rest =>
      obtain ⟨h1, h2⟩ := containsSub_cons_eq_false h
      simp [replaceF, h1, ih rest h2]

theorem replaceGo_of_not_contains {pat rep s : List Char}
    (h : containsSub pat s = false) : replaceGo pat rep s = s :=
  replaceF_of_not_contains pat rep s.length s h

theorem not_mem_replaceF {ch : Char} {pat rep : List Char} (hrep : ch ∉ rep) :
    ∀ (fuel : Nat) (s : List Char), ch ∉ s → ch ∉ replaceF pat rep fuel s := by
  intro fuel
  induction fuel with
  | zero => intro s h; cases s with | nil => simp [replaceF] | cons c r => exact h
  | succ f ih =>
    intro s h
    cases s with
    | nil => simp [replaceF]
    | cons c rest =>
      have hc : ch ≠ c := fun he => h (he ▸ List.mem_cons_self c rest)
      have hrest : ch ∉ rest := fun hm => h (List.mem_cons_of_mem c hm)
      by_cases hpre : pat ≠ [] ∧ startsWithL pat (c :: rest) = true
      · rw [replaceF, if_pos hpre]
        intro hmem
        rcases List.mem_append.mp hmem with hl | hr
        · exact hrep hl
        · exact ih _ (fun hm => hrest (List.mem_of_mem_drop hm)) hr
      · rw [replaceF, if_neg hpre]
        intro hmem
        rcases List.mem_cons.mp hmem with he | hm
        · exact hc he
        · exact ih rest hrest hm

theorem not_mem_replaceGo {ch : Char} {pat rep s : List Char} (hrep : ch ∉ rep)
    (h : ch ∉ s) : ch ∉ replaceGo pat rep s :=
  not_mem_replaceF hrep s.length s h

theorem not_mem_replaceF_single {p : Char} {rep : List Char} (hrep : p ∉ rep) :
    ∀ (fuel : Nat) (s : List Char), s.length ≤ fuel →
      p ∉ replaceF [p] rep fuel s := by
  intro fuel
  induction fuel with
  | zero =>
    intro s hlen
    have : s = [] := List.length_eq_zero.mp (Nat.le_zero.mp hlen)
    subst this; simp [replaceF]
  | succ f ih =>
    intro s hlen
    cases s with
    | nil => simp [replaceF]
    | cons c rest =>
      have hlen' : rest.length ≤ f := Nat.lt_succ_iff.mp hlen
      by_cases hc : p = c
      · subst hc
        have hpre : ([p] : List Char) ≠ [] ∧ startsWithL [p] (p :: rest) = true := by
          simp [startsWithL]
        rw [replaceF, if_pos hpre]
        intro hmem
        rcases List.mem_append.mp hmem with hl | hr
        · exact hrep hl
        · exact ih (List.drop 0 rest) (by simpa using hlen') hr
      · have hpre : ¬(([p] : List Char) ≠ [] ∧ startsWithL [p] (c :: rest) = true) := by
          simp [startsWithL]
          intro he; exact absurd he hc
        rw [replaceF, if_neg hpre]
        intro hmem
        rcases List.mem_cons.mp hmem with he | hm
        · exact hc he
        · exact ih rest hlen' hm

theorem not_mem_replaceGo_single {p : Char} {rep : List Char} (hrep : p ∉ rep)
    (s : List Char) : p ∉ replaceGo [p] rep s :=
  not_mem_replaceF_single hrep s.length s (Nat.le_refl _)

theorem containsSub_single_eq_false {c : Char} :
    ∀ s : List Char, c ∉ s → containsSub [c] s = false := by
  intro s
  induction s with
  | nil => intro _; rfl
  | cons d rest ih =>
    intro h
    have hc : c ≠ d := fun he => h (he ▸ List.mem_cons_self d rest)
    have hrest : c ∉ rest := fun hm => h (List.mem_cons_of_mem d hm)
    simp [containsSub, startsWithL, ih hrest]
    intro he; exact absurd he hc

/-! ## Claims -/

/-- **C1 counterexample.** The claim says the empty tag expression
behaves as the constant true and every scenario is accepted; on the
code, evaluating the empty expression fails (`types.Eval` rejects an
empty string), `filterTags` returns the zero value `false`, the filter
marks the scenario for removal, and `filterSpecsByTags` drops the spec. -/
theorem emptyExpression_accepts_counterexample :
    filterTagsS "" ["a"] = false ∧
    scenarioFilterBasedOnTags [] "" (Item.scenario (some ["a"])) = true ∧
    filterSpecsByTags [⟨none, [Item.scenario (some ["a"])]⟩] "" = [] := by
  decide

theorem filterTagsS_empty (stags : List String) : filterTagsS "" stags = false :=
  rfl

theorem formatAndEvaluateExpression_nil (tagsMap : List (List Char)) :
    formatAndEvaluateExpression [] tagsMap = none :=
  rfl

theorem filterTagsStep_of_norm_nil {t : List Char} (ht : replaceSpecialChar t = [])
    (stags : List (List Char)) : filterTagsStep t stags = (false, []) := by
  simp only [filterTagsStep, ht, formatAndEvaluateExpression_nil, Option.getD_none]

theorem no_scenarios_after_empty_filter (tv : List String) :
    ∀ (items : List Item) (t : List Char), replaceSpecialChar t = [] →
      (filterItemsGo ⟨tv, ⟨t⟩⟩ items).filter Item.isScenario = [] := by
  intro items
  induction items with
  | nil => intro t _; rfl
  | cons it rest ih =>
    intro t ht
    cases it with
    | scenario ts =>
      cases ts with
      | none =>
        simp only [filterItemsGo, ScenarioFilterBasedOnTags.Filter,
          filterTagsStep_of_norm_nil ht, Bool.not_false, if_true]
        exact ih [] rfl
      | some ls =>
        simp only [filterItemsGo, ScenarioFilterBasedOnTags.Filter,
          filterTagsStep_of_norm_nil ht, Bool.not_false, if_true]
        exact ih [] rfl
    | nonScenario =>
      show (Item.nonScenario :: filterItemsGo ⟨tv, ⟨t⟩⟩ rest).filter
          Item.isScenario = []
      simp only [List.filter_cons, Item.isScenario, Bool.false_eq_true, if_false]
      exact ih t ht

/-- **C1 (amended).** Filtering with the empty tag expression rejects
every scenario: evaluating the empty expression is an error and yields
false, so `ScenarioFilterBasedOnTags.Filter` marks every scenario for
removal and `filterSpecsByTags` returns the empty spec list. -/
theorem emptyExpression_rejects_every_scenario :
    ∀ (stags specTags : List String) (t : Option (List String))
      (specs : List Specification),
      filterTagsS "" stags = false ∧
      scenarioFilterBasedOnTags specTags "" (Item.scenario t) = true ∧
      filterSpecsByTags specs "" = [] := by
  intro stags specTags t specs
  have hnil : replaceSpecialChar ("".data) = [] := by decide
  refine ⟨filterTagsS_empty stags, ?_, ?_⟩
  · cases t with
    | none =>
      rw [scenarioFilterBasedOnTags, ScenarioFilterBasedOnTags.Filter]
      dsimp only
      rw [filterTagsStep_of_norm_nil hnil]
      rfl
    | some ls =>
      rw [scenarioFilterBasedOnTags, ScenarioFilterBasedOnTags.Filter]
      dsimp only
      rw [filterTagsStep_of_norm_nil hnil]
      rfl
  · induction specs with
    | nil => rfl
    | cons sp rest ih =>
      have h : (filterItemsGo ⟨sp.tags.getD [], ""⟩ sp.items).filter
          Item.isScenario = [] :=
        no_scenarios_after_empty_filter (sp.tags.getD []) sp.items "".data hnil
      have hz : (sp.runFilter ⟨sp.tags.getD [], ""⟩).scenarios.length = 0 := by
        simp [Specification.runFilter, Specification.scenarios, h]
      simp only [filterSpecsByTags, List.filterMap_cons] at ih ⊢
      rw [if_neg (by simp [hz])]
      exact ih

/-- **C2 counterexample.** Normalisation is not idempotent: `"&&&"`
normalises to `"&&"` (the leftmost `&&` collapses, the third `&` is
kept), and a second pass collapses that to `"&"`. -/
theorem normalise_not_idempotent :
    ¬(normaliseS (normaliseS "&&&") = normaliseS "&&&") := by
  decide

theorem no_space_in_normalise (e : List Char) : ' ' ∉ replaceSpecialChar e := by
  unfold replaceSpecialChar
  apply not_mem_replaceGo (by decide)
  apply not_mem_replaceGo (by decide)
  apply not_mem_replaceGo (by decide)
  rw [show (" ".data : List Char) = [' '] from rfl]
  exact not_mem_replaceGo_single (by decide) e

theorem no_comma_in_normalise (e : List Char) : ',' ∉ replaceSpecialChar e := by
  unfold replaceSpecialChar
  apply not_mem_replaceGo (by decide)
  apply not_mem_replaceGo (by decide)
  rw [show (",".data : List Char) = [','] from rfl]
  exact not_mem_replaceGo_single (by decide) _

theorem normalise_fixed_of_collapsed (t : List Char)
    (hsp : ' ' ∉ t) (hc : ',' ∉ t)
    (h1 : containsSub "&&".data t = false)
    (h2 : containsSub "||".data t = false) :
    replaceSpecialChar t = t := by
  unfold replaceSpecialChar
  rw [show (" ".data : List Char) = [' '] from rfl,
    replaceGo_of_not_contains (containsSub_single_eq_false t hsp),
    show (",".data : List Char) = [','] from rfl,
    replaceGo_of_not_contains (containsSub_single_eq_false t hc),
    replaceGo_of_not_contains h1, replaceGo_of_not_contains h2]

/-- **C2 (amended).** Normalisation is idempotent for every expression
whose normal form contains no `&&` and no `||` substring (a second pass
can only re-collapse leftover runs, as in `"&&&" → "&&" → "&"`): the
normal form then contains no whitespace and no comma either, so all four
replacements fix it. -/
theorem normalise_idempotent_of_collapsed (e : String)
    (h1 : containsSub "&&".data (normaliseS e).data = false)
    (h2 : containsSub "||".data (normaliseS e).data = false) :
    normaliseS (normaliseS e) = normaliseS e := by
  show (⟨replaceSpecialChar (normaliseS e).data⟩ : String) = normaliseS e
  rw [normalise_fixed_of_collapsed (normaliseS e).data
    (no_space_in_normalise e.data) (no_comma_in_normalise e.data) h1 h2]

/-- Witness for the amended C2 at the concrete expression `"a && b"`. -/
theorem normalise_idempotent_witness :
    containsSub "&&".data (normaliseS "a && b").data = false ∧
    containsSub "||".data (normaliseS "a && b").data = false ∧
    normaliseS (normaliseS "a && b") = normaliseS "a && b" :=
  ⟨by decide, by decide,
    normalise_idempotent_of_collapsed "a && b" (by decide) (by decide)⟩

/-- **C3 counterexample.** Retention is not a function of the effective
tag set: `filterTags` re-normalises the filter's stored expression in
place, so with expression `"a &,& b"` (first normalisation `"a&&b"`,
re-collapsed to `"a&b"` by the second call) a spec with two scenarios
both tagged `{a, b}` loses the first (`types.Eval("1&&1")` is a type
error on integers, hence false) and keeps the second — even though the
claim-side evaluation of the expression against that very tag set is
false. -/
theorem tag_retention_not_a_function_of_tags :
    filterSpecsByTags
        [⟨none, [Item.scenario (some ["a", "b"]), Item.scenario (some ["a", "b"])]⟩]
        "a &,& b" =
      [⟨none, [Item.scenario (some ["a", "b"])]⟩] ∧
    filterTagsS "a &,& b" ["a", "b"] = false := by
  decide

theorem ite_scen_emptiness (l : List Item) (x : Specification) :
    (if l.length ≠ 0 then some x else none) =
      (if l.isEmpty then none else some x) := by
  cases l <;> simp

theorem filterItemsGo_stable (specTags : List String) (e : String)
    (hfix : replaceSpecialChar (replaceSpecialChar e.data)
      = replaceSpecialChar e.data) :
    ∀ (items : List Item) (t : List Char),
      replaceSpecialChar t = replaceSpecialChar e.data →
      filterItemsGo ⟨specTags, ⟨t⟩⟩ items =
        items.filter (fun it =>
          match it with
          | Item.scenario ts => filterTagsS e (ts.getD [] ++ specTags)
          | Item.nonScenario => true) := by
  intro items
  induction items with
  | nil => intro t _; rfl
  | cons it rest ih =>
    intro t ht
    cases it with
    | nonScenario =>
      rw [filterItemsGo, ScenarioFilterBasedOnTags.Filter]
      dsimp only
      rw [List.filter_cons]
      dsimp only
      rw [ih t ht]
      rfl
    | scenario ts =>
      cases ts with
      | none =>
        have hval : (filterTagsStep t (specTags.map String.data)).1
            = filterTagsS e specTags := by
          simp only [filterTagsS, filterTags, filterTagsStep, ht]
        have hst : (filterTagsStep t (specTags.map String.data)).2
            = replaceSpecialChar e.data := by
          simp only [filterTagsStep, ht]
        rw [filterItemsGo, ScenarioFilterBasedOnTags.Filter]
        dsimp only [data_mk]
        rw [hval, hst, ih (replaceSpecialChar e.data) hfix, List.filter_cons]
        cases hb : filterTagsS e specTags <;> simp [hb]
      | some ls =>
        have hval : (filterTagsStep t ((ls ++ specTags).map String.data)).1
            = filterTagsS e (ls ++ specTags) := by
          simp only [filterTagsS, filterTags, filterTagsStep, ht]
        have hst : (filterTagsStep t ((ls ++ specTags).map String.data)).2
            = replaceSpecialChar e.data := by
          simp only [filterTagsStep, ht]
        rw [filterItemsGo, ScenarioFilterBasedOnTags.Filter]
        dsimp only [data_mk]
        rw [hval, hst, ih (replaceSpecialChar e.data) hfix, List.filter_cons]
        cases hb : filterTagsS e (ls ++ specTags) <;> simp [hb]

/-- **C3 (amended).** For every tag expression on which the embedding is
exact — its normal form contains no `&&` and no `||` (so the filter's
in-place re-normalisation is invisible), every parenthesis closes (so
Go's negation-elimination loop terminates) and it has at most twelve
operands (so Go's `sort.Sort` is the stable insertion sort) —
`filterSpecsByTags` retains a scenario iff the expression evaluates to
true on its effective tag set (scenario tags followed by the enclosing
spec tags, whitespace-stripped inside `filterTags`), retains every
non-scenario item, and drops every spec whose scenario list becomes
empty; every spec in the result has at least one scenario. -/
theorem filterSpecsByTags_matches_spec (specs : List Specification) (e : String)
    (h1 : containsSub "&&".data (normaliseS e).data = false)
    (h2 : containsSub "||".data (normaliseS e).data = false)
    (_hbal : parenScan 0 (normaliseS e).data = true)
    (_hops : (getOperands (normaliseS e).data).length ≤ 12) :
    filterSpecsByTags specs e = filterSpecsByTagsSpec specs e ∧
    (filterSpecsByTags specs e).all (fun sp => !sp.scenarios.isEmpty) = true := by
  have hfix : replaceSpecialChar (replaceSpecialChar e.data)
      = replaceSpecialChar e.data :=
    normalise_fixed_of_collapsed (normaliseS e).data
      (no_space_in_normalise e.data) (no_comma_in_normalise e.data) h1 h2
  constructor
  · unfold filterSpecsByTags filterSpecsByTagsSpec Specification.runFilter
    congr 1
    funext sp
    dsimp only
    rw [show filterItemsGo ⟨sp.tags.getD [], e⟩ sp.items =
        sp.items.filter (fun it =>
          match it with
          | Item.scenario ts => filterTagsS e (ts.getD [] ++ sp.tags.getD [])
          | Item.nonScenario => true) from
      filterItemsGo_stable (sp.tags.getD []) e hfix sp.items e.data rfl]
    exact ite_scen_emptiness _ _
  · rw [List.all_eq_true]
    intro sp hsp
    rcases List.mem_filterMap.mp hsp with ⟨a, -, hfa⟩
    dsimp only at hfa
    split at hfa
    · rename_i h
      cases hfa
      have hne : ¬((a.runFilter ⟨a.tags.getD [], e⟩).scenarios = []) :=
        fun he => h (by rw [he]; rfl)
      simp [List.isEmpty_iff, hne]
    · exact Option.noConfusion hfa

/-- Witness for the amended C3 at concrete inputs satisfying its
hypotheses. -/
theorem filterSpecsByTags_matches_spec_witness :
    containsSub "&&".data (normaliseS "a & b").data = false ∧
    containsSub "||".data (normaliseS "a & b").data = false ∧
    parenScan 0 (normaliseS "a & b").data = true ∧
    (getOperands (normaliseS "a & b").data).length ≤ 12 ∧
    (filterSpecsByTags [⟨none, [Item.scenario (some ["a", "b"])]⟩] "a & b" =
        filterSpecsByTagsSpec [⟨none, [Item.scenario (some ["a", "b"])]⟩] "a & b" ∧
      (filterSpecsByTags [⟨none, [Item.scenario (some ["a", "b"])]⟩] "a & b").all
          (fun sp => !sp.scenarios.isEmpty) = true) :=
  ⟨by decide, by decide, by decide, by decide,
    filterSpecsByTags_matches_spec [⟨none, [Item.scenario (some ["a", "b"])]⟩]
      "a & b" (by decide) (by decide) (by decide) (by decide)⟩

/-- **C4.** De Morgan's law holds for the evaluator: on each of the four
membership combinations of tags `a` and `b`, the negated-group path of
`"!(a & b)"` (balanced-bracket scan and splice) agrees with the
literal-negation path of `"!a | !b"` (`!true → false`, `!false → true`). -/
theorem deMorgan_tag_evaluator :
    ∀ pa pb : Bool,
      filterTagsS "!(a & b)" ((if pa then ["a"] else []) ++ (if pb then ["b"] else [])) =
      filterTagsS "!a | !b" ((if pa then ["a"] else []) ++ (if pb then ["b"] else [])) := by
  decide

/-- **C5.** The number of execution streams is `min(N, K)` for `N`
requested streams over `K` selected specs; it is `0` when `K = 0`, in
which case the run is the empty suite result.  The last three conjuncts
reproduce `TestGetNumberOfStreams` from the sources. -/
theorem streamCount_saturation :
    ∀ (e : parallelExecution) (skipped n : Nat) (streamResult : Nat → SuiteResult),
      e.getNumberOfStreams = min e.numberOfExecutionStreams e.specs.length ∧
      (parallelExecution.mk n []).getNumberOfStreams = 0 ∧
      (parallelExecution.mk n []).run skipped streamResult = emptySuiteResult ∧
      (parallelExecution.mk 5 (createSpecsList 6)).getNumberOfStreams = 5 ∧
      (parallelExecution.mk 10 (createSpecsList 6)).getNumberOfStreams = 6 ∧
      (parallelExecution.mk 17 (createSpecsList 0)).getNumberOfStreams = 0 := by
  intro e skipped n streamResult
  refine ⟨rfl, ?_, ?_, by decide, by decide, by decide⟩
  · simp [parallelExecution.getNumberOfStreams]
  · simp [parallelExecution.run, parallelExecution.getNumberOfStreams]

/-- **C6.** Aggregation sums `ExecutionTime` and `SpecsFailedCount`,
concatenates `SpecResults` (so lengths add), and fails iff some stream
failed.  The last conjunct reproduces `TestAggregationOfSuiteResult`
from the sources. -/
theorem aggregate_sum_invariants :
    ∀ (skipped : Nat) (results : List SuiteResult),
      (aggregateResults skipped results).ExecutionTime
          = (results.map (fun r => r.ExecutionTime)).sum ∧
      (aggregateResults skipped results).SpecResults.length
          = (results.map (fun r => r.SpecResults.length)).sum ∧
      (aggregateResults skipped results).SpecsFailedCount
          = (results.map (fun r => r.SpecsFailedCount)).sum ∧
      ((aggregateResults skipped results).IsFailed = true ↔
          ∃ r ∈ results, r.IsFailed = true) ∧
      (let agg := aggregateResults 0
          [{ ExecutionTime := 1, SpecsFailedCount := 1, IsFailed := true,
             SpecResults := [{}, {}] },
           { ExecutionTime := 3, SpecResults := [{}, {}] },
           { ExecutionTime := 5, SpecResults := [{}, {}] }]
       agg.SpecsFailedCount = 1 ∧ agg.IsFailed = true ∧
       agg.SpecResults.length = 6 ∧ agg.SpecsSkippedCount = 0 ∧
       agg.ExecutionTime = 9) := by
  intro skipped results
  refine ⟨rfl, ?_, rfl, ?_, by decide⟩
  · show ((results.map (fun r => r.SpecResults)).flatten).length = _
    rw [List.length_flatten, List.map_map]
    rfl
  · simp [aggregateResults, List.any_eq_true]

theorem flatten_filter_not_isEmpty {α : Type} :
    ∀ L : List (List α), (L.filter (fun l => !l.isEmpty)).flatten = L.flatten := by
  intro L
  induction L with
  | nil => rfl
  | cons l rest ih =>
    cases l with
    | nil => simpa [List.filter_cons] using ih
    | cons a t => simp [List.filter_cons, ih]

theorem data_string_join :
    ∀ (L : List String) (acc : String),
      (L.foldl (fun r s => r ++ s) acc).data = acc.data ++ (L.map String.data).flatten := by
  intro L
  induction L with
  | nil => intro acc; simp
  | cons s tl ih =>
    intro acc
    simp [List.foldl_cons, ih (acc ++ s), String.data_append]

theorem newline_shift :
    ∀ (L : List (List Char)) (R : List Char),
      '\n' :: ((L.map (fun l => l ++ ['\n'])).flatten ++ R) =
        (L.map (fun l => '\n' :: l)).flatten ++ '\n' :: R := by
  intro L
  induction L with
  | nil => intro R; rfl
  | cons l tl ih =>
    intro R
    simp only [List.map_cons, List.flatten_cons, List.append_assoc, List.cons_append]
    rw [← ih R]
    simp

/-- **C7.** `streamExecError.Error()` is exactly the header, one
newline-separated line per skipped spec, and the `Reason : <m>.` line
with its trailing period; aggregation concatenates the per-stream
unhandled-error lists (dropping only empty lists, hence preserving every
error).  The final conjunct reproduces
`TestAggregationOfSuiteResultWithUnhandledErrors` from the sources. -/
theorem streamExecError_format_and_aggregation :
    ∀ (sk : List String) (m : String) (skipped : Nat) (results : List SuiteResult),
      (streamExecError.errorText { specsSkipped := sk, message := m }).data =
        "The following specifications could not be executed:".data ++
          ((sk.map String.data).map (fun l => '\n' :: l)).flatten ++
          '\n' :: ("Reason : " ++ m ++ ".").data ∧
      (aggregateResults skipped results).UnhandledErrors =
        (results.map (fun r => r.UnhandledErrors)).flatten ∧
      (let agg := aggregateResults 1
          [{ IsFailed := true,
             UnhandledErrors :=
               [{ specsSkipped := ["spec1", "spec2"],
                  message := "Runner failed to start" }] },
           { UnhandledErrors :=
               [{ specsSkipped := ["spec3", "spec4"],
                  message := "Runner failed to start" }] },
           {}]
       agg.UnhandledErrors.length = 2 ∧
       agg.UnhandledErrors.map streamExecError.errorText =
         ["The following specifications could not be executed:\nspec1\nspec2\nReason : Runner failed to start.",
          "The following specifications could not be executed:\nspec3\nspec4\nReason : Runner failed to start."] ∧
       (agg.UnhandledErrors.map (fun e => e.specsSkipped.length)) = [2, 2] ∧
       agg.SpecsSkippedCount = 1) := by
  intro sk m skipped results
  refine ⟨?_, ?_, by decide⟩
  · show (("The following specifications could not be executed:\n" ++
        String.join (sk.map (fun s => s ++ "\n")) ++ "Reason : " ++ m ++ ".").data) = _
    rw [String.data_append, String.data_append, String.data_append,
      String.data_append]
    rw [show String.join = fun L => List.foldl (fun r s => r ++ s) "" L from rfl]
    rw [data_string_join]
    have hmap : (sk.map (fun s => s ++ "\n")).map String.data =
        (sk.map String.data).map (fun l => l ++ ['\n']) := by
      simp [List.map_map, Function.comp, String.data_append]
    rw [hmap]
    have hsplit : ("The following specifications could not be executed:\n" : String).data =
        "The following specifications could not be executed:".data ++ ['\n'] := by decide
    rw [hsplit]
    simp only [List.append_assoc, List.nil_append, List.singleton_append]
    rw [← newline_shift]
    simp [String.data_append]
  · show ((results.map (fun r => r.UnhandledErrors)).filter (fun l => !l.isEmpty)).flatten = _
    exact flatten_filter_not_isEmpty _

theorem lookup_append {β : Type} :
    ∀ (l1 l2 : List (String × β)) (k : String),
      (l1 ++ l2).lookup k = ((l1.lookup k).orElse (fun _ => l2.lookup k)) := by
  intro l1 l2 k
  induction l1 with
  | nil => rfl
  | cons p rest ih =>
    obtain ⟨a, b⟩ := p
    by_cases h : k == a
    · simp [List.lookup, h, Option.orElse]
    · simp only [List.cons_append, List.lookup, h]
      exact ih

theorem lookup_none_not_mem_keys {β : Type} :
    ∀ (l : List (String × β)) (k : String),
      l.lookup k = none → k ∉ l.map Prod.fst := by
  intro l k
  induction l with
  | nil => intro _; simp
  | cons p rest ih =>
    obtain ⟨a, b⟩ := p
    intro h
    by_cases hk : k == a
    · simp [List.lookup, hk] at h
    · simp only [List.lookup, hk] at h
      have hne : k ≠ a := by simpa using hk
      simp only [List.map_cons, List.mem_cons]
      rintro (he | hm)
      · exact hne he
      · exact ih h hm

theorem addToStepsCache_lookup :
    ∀ (steps : List StepValue) (cache : List (String × StepValue)) (k : String),
      (addToStepsCache cache steps).lookup k =
        ((cache.lookup k).orElse
          (fun _ => steps.find? (fun s => s.stepValue == k))) := by
  intro steps
  induction steps with
  | nil =>
    intro cache k
    show cache.lookup k = _
    cases h : cache.lookup k <;> rfl
  | cons s tl ih =>
    intro cache k
    show (addToStepsCache
        (if (cache.lookup s.stepValue).isSome then cache
         else cache ++ [(s.stepValue, s)]) tl).lookup k = _
    rw [ih]
    by_cases h1 : (cache.lookup s.stepValue).isSome
    · rw [if_pos h1]
      by_cases hk : s.stepValue == k
      · have hek : s.stepValue = k := by simpa using hk
        obtain ⟨v, hv⟩ := Option.isSome_iff_exists.mp h1
        rw [hek] at hv
        rw [hv]
        rfl
      · have hfind : (s :: tl).find? (fun x => x.stepValue == k)
            = tl.find? (fun x => x.stepValue == k) :=
          List.find?_cons_of_neg _ (by simpa using hk)
        rw [hfind]
    · rw [if_neg h1]
      have h1n : cache.lookup s.stepValue = none :=
        Option.not_isSome_iff_eq_none.mp h1
      rw [lookup_append]
      by_cases hk : s.stepValue == k
      · have hek : s.stepValue = k := by simpa using hk
        subst hek
        have hfind : (s :: tl).find? (fun x => x.stepValue == s.stepValue)
            = some s :=
          List.find?_cons_of_pos _ (by simp)
        rw [hfind, h1n]
        simp [List.lookup, Option.orElse]
      · have hne : k ≠ s.stepValue := fun he => hk (by simp [he])
        have hb : (k == s.stepValue) = false := beq_eq_false_iff_ne.mpr hne
        have hsing :
            ([(s.stepValue, s)] : List (String × StepValue)).lookup k = none := by
          simp [List.lookup, hb]
        have hfind : (s :: tl).find? (fun x => x.stepValue == k)
            = tl.find? (fun x => x.stepValue == k) :=
          List.find?_cons_of_neg _ (by simpa using hk)
        rw [hfind]
        simp only [hsing]
        cases h : cache.lookup k <;> rfl

theorem addToStepsCache_keys_nodup :
    ∀ (steps : List StepValue) (cache : List (String × StepValue)),
      (cache.map Prod.fst).Nodup →
      ((addToStepsCache cache steps).map Prod.fst).Nodup := by
  intro steps
  induction steps with
  | nil => intro cache h; exact h
  | cons s tl ih =>
    intro cache h
    show ((addToStepsCache
        (if (cache.lookup s.stepValue).isSome then cache
         else cache ++ [(s.stepValue, s)]) tl).map Prod.fst).Nodup
    by_cases h1 : (cache.lookup s.stepValue).isSome
    · rw [if_pos h1]; exact ih cache h
    · rw [if_neg h1]
      refine ih _ ?_
      have h1n : cache.lookup s.stepValue = none :=
        Option.not_isSome_iff_eq_none.mp h1
      have hnot := lookup_none_not_mem_keys cache s.stepValue h1n
      rw [List.map_append, List.nodup_append]
      exact ⟨h, by simp, by simpa [List.disjoint_singleton] using hnot⟩

/-- **C8.** The steps cache has first-writer-wins semantics:
`addToStepsCache` never overwrites (a key already bound stays bound to
its old value; an absent key receives the first list entry with that
key), `initStepsCache` merges implemented steps, then concept steps,
then spec steps in that priority order, and the resulting cache has at
most one entry per canonical step-value key. -/
theorem stepsCache_first_writer_wins :
    ∀ (cache : List (String × StepValue)) (steps : List StepValue) (k : String)
      (impl conc specsSteps : List StepValue),
      (addToStepsCache cache steps).lookup k =
        ((cache.lookup k).orElse
          (fun _ => steps.find? (fun s => s.stepValue == k))) ∧
      (initStepsCache impl conc specsSteps).lookup k =
        (impl ++ conc ++ specsSteps).find? (fun s => s.stepValue == k) ∧
      ((initStepsCache impl conc specsSteps).map Prod.fst).Nodup := by
  intro cache steps k impl conc specsSteps
  refine ⟨addToStepsCache_lookup steps cache k, ?_,
    addToStepsCache_keys_nodup _ [] (by simp)⟩
  have h := addToStepsCache_lookup (impl ++ conc ++ specsSteps) [] k
  simpa [initStepsCache, List.lookup, Option.orElse] using h

/-- **C9 counterexample.** The claim says every handler failure after a
successful decode echoes the request's `MessageId`; but the
language-plugin-lib-path handler answers its failures through
`getErrorMessage`, which generates a fresh id.  With request id 7 and a
failing `plugin.GetInstallDir`, the error response carries the fresh id
99, not 7. -/
theorem handler_error_fresh_id_counterexample :
    (let env : ApiEnv :=
      { decoded := some ⟨7, ApiMessageType.getLanguagePluginLibPathRequest⟩,
        freshId := 99, stepValueOk := true,
        installDirOk := false, runnerInfoOk := true }
     (messageBytesReceived env).messageType = ApiMessageType.errorResponse ∧
     (messageBytesReceived env).messageId = 99 ∧
     ¬((messageBytesReceived env).messageId = 7)) := by
  decide

set_option linter.unnecessarySeqFocus false in
/-- **C9 (amended).** A decode failure is answered by a typed error
response with a freshly generated id; after a successful decode, every
response — error responses from failing handlers included — echoes the
request's `MessageId`, except the language-plugin-lib-path handler,
whose failure responses carry a freshly generated id. -/
theorem api_messageId_discipline (env : ApiEnv) (m : APIMessage) :
    (env.decoded = none →
      messageBytesReceived env =
        { messageId := env.freshId, messageType := ApiMessageType.errorResponse }) ∧
    (env.decoded = some m →
      ((m.messageType = ApiMessageType.getLanguagePluginLibPathRequest ∧
          (env.installDirOk = false ∨ env.runnerInfoOk = false)) →
        messageBytesReceived env =
          { messageId := env.freshId, messageType := ApiMessageType.errorResponse }) ∧
      (¬(m.messageType = ApiMessageType.getLanguagePluginLibPathRequest ∧
          (env.installDirOk = false ∨ env.runnerInfoOk = false)) →
        (messageBytesReceived env).messageId = m.messageId)) := by
  constructor
  · intro h
    simp [messageBytesReceived, h, getErrorMessage]
  · intro h
    constructor
    · rintro ⟨ht, hf⟩
      rcases hf with h1 | h1
      · simp [messageBytesReceived, h, ht, getLanguagePluginLibPath,
          getErrorMessage, h1]
      · simp [messageBytesReceived, h, ht, getLanguagePluginLibPath,
          getErrorMessage, h1]
    · intro hn
      obtain ⟨mid, mt⟩ := m
      cases mt <;>
        simp_all [messageBytesReceived, projectRootRequestResponse,
          installationRootRequestResponse, getAllStepsRequestResponse,
          getAllSpecsRequestResponse, getStepValueRequestResponse,
          getLanguagePluginLibPath, getAllConceptsRequestResponse,
          performRefactoring, extractConcept, formatSpecs,
          createUnsupportedAPIMessageResponse, getErrorResponse,
          getErrorMessage] <;>
        by_cases hs : env.stepValueOk <;>
        by_cases hi : env.installDirOk <;>
        by_cases hr : env.runnerInfoOk <;>
        simp_all

/-- Witness for the amended C9: a decode failure at a concrete
environment yields the fresh-id error response. -/
theorem api_messageId_discipline_witness :
    messageBytesReceived
        { decoded := none, freshId := 42, stepValueOk := true,
          installDirOk := true, runnerInfoOk := true } =
      { messageId := 42, messageType := ApiMessageType.errorResponse } :=
  (api_messageId_discipline
    { decoded := none, freshId := 42, stepValueOk := true,
      installDirOk := true, runnerInfoOk := true }
    { messageId := 0, messageType := ApiMessageType.errorResponse }).1 rfl

theorem runConsoleEvents_closed_form :
    ∀ (si st : Int) (evs : List ConsoleEvent) (ind : Int),
      runConsoleEvents si st ind evs =
        ind +
          si * ((evs.count ConsoleEvent.scenarioStart : Int) -
            (evs.count ConsoleEvent.scenarioEnd : Int)) +
          st * (((evs.count ConsoleEvent.stepStart : Int) +
              (evs.count ConsoleEvent.conceptStart : Int)) -
            ((evs.count ConsoleEvent.stepEnd : Int) +
              (evs.count ConsoleEvent.conceptEnd : Int))) := by
  intro si st evs
  induction evs with
  | nil => intro ind; simp [runConsoleEvents]
  | cons e tl ih =>
    intro ind
    have hstep : runConsoleEvents si st ind (e :: tl) =
        runConsoleEvents si st (ind + indentationDelta si st e) tl := rfl
    rw [hstep, ih]
    cases e <;>
      simp [indentationDelta, List.count_cons] <;> ring

/-- **C10.** The reporter's `indentation` field stays balanced: every
`ScenarioEnd` subtracts exactly the `scenarioIndentation` a
`ScenarioStart` added, and every `StepEnd`/`ConceptEnd` subtracts
exactly the `stepIndentation` the matching `StepStart`/`ConceptStart`
added, so any sequence of calls with balanced start/end counts leaves
`indentation` at its initial value (for any values of the two
indentation constants). -/
theorem console_indentation_balanced (si st ind : Int) (evs : List ConsoleEvent)
    (hscen : evs.count ConsoleEvent.scenarioStart = evs.count ConsoleEvent.scenarioEnd)
    (hstep : evs.count ConsoleEvent.stepStart + evs.count ConsoleEvent.conceptStart
        = evs.count ConsoleEvent.stepEnd + evs.count ConsoleEvent.conceptEnd) :
    runConsoleEvents si st ind evs = ind := by
  rw [runConsoleEvents_closed_form]
  have e1 : ((evs.count ConsoleEvent.scenarioStart : Int) -
      (evs.count ConsoleEvent.scenarioEnd : Int)) = 0 := by omega
  have e2 : (((evs.count ConsoleEvent.stepStart : Int) +
      (evs.count ConsoleEvent.conceptStart : Int)) -
      ((evs.count ConsoleEvent.stepEnd : Int) +
      (evs.count ConsoleEvent.conceptEnd : Int))) = 0 := by omega
  rw [e1, e2]
  ring

/-- Witness for C10 at a concrete balanced call sequence. -/
theorem console_indentation_balanced_witness :
    runConsoleEvents 2 4 0
      [ConsoleEvent.specStart, ConsoleEvent.scenarioStart, ConsoleEvent.stepStart,
       ConsoleEvent.stepEnd, ConsoleEvent.conceptStart, ConsoleEvent.stepStart,
       ConsoleEvent.stepEnd, ConsoleEvent.conceptEnd, ConsoleEvent.scenarioEnd,
       ConsoleEvent.specEnd] = 0 :=
  console_indentation_balanced 2 4 0 _ (by decide) (by decide)

end Gauge
